import Mathlib

/-!
# Verification of the wavesim_py core against its specification

Shallow embedding of the core of the `wavesim_py` repository:
the iteration driver (`anysim.py`, `state.py`), the configuration
validation and the partitioning of `helmholtzbase.py`, and the
per-domain operators of `wavesim/maxwelldomain.py`.

Floating-point arithmetic is modelled over `ℚ`, `ℝ` and `ℂ` as
appropriate; tensor shapes are modelled as `List ℕ`; fallible
construction paths return `Option` values describing the raised error.
-/

namespace Wavesim

/-! ## Iteration driver (`anysim.iterate` and `State.next`) -/

/-- `State.next` from `state.py`: the termination test evaluated once per
iteration on the logged normalized residual of that iteration.  Mirrors
`full_residuals[i] <= threshold or full_residuals[i] >= divergence_limit
or i >= max_iterations - 1` (for `max_iterations = 0` the Python
comparison `i >= -1` is always true, matching truncated subtraction). -/
def stateNext (threshold divergenceLimit : ℚ) (maxIterations : ℕ) (res : ℚ) (i : ℕ) : Bool :=
  decide (res ≤ threshold) || decide (divergenceLimit ≤ res) || decide (maxIterations - 1 ≤ i)

/-- The loop body of `anysim.iterate`: for `i in range(max_iterations)`,
the iteration computes the full-domain residual (abstracted here as the
sequence `residual`), logs it with `state.log_full_residual`, then calls
`state.next(i)` and breaks when `state.should_terminate` is set.  The
remaining trip count of the `range` is carried as the structural argument
`fuel` (the loop is entered with `fuel = max_iterations` and `i = 0`).
Returns the list of logged normalized residuals and `state.iterations`. -/
def iterateLoop (residual : ℕ → ℚ) (threshold divergenceLimit : ℚ)
    (maxIterations : ℕ) : ℕ → ℕ → List ℚ → List ℚ × ℕ
  | 0, _, log => (log, maxIterations)
  | fuel + 1, i, log =>
    if stateNext threshold divergenceLimit maxIterations (residual i) i then
      (log ++ [residual i], i + 1)
    else
      iterateLoop residual threshold divergenceLimit maxIterations fuel (i + 1) (log ++ [residual i])

/-- `anysim.iterate`: the driver loop.  `raw i` is the full-domain residual
norm of iteration `i` and `initNorm` the initial norm
`‖medium(propagator(source))‖` computed before the loop; the logged value
is `raw i / initNorm` (`State.log_full_residual`). -/
def runIterate (raw : ℕ → ℚ) (initNorm threshold divergenceLimit : ℚ)
    (maxIterations : ℕ) : List ℚ × ℕ :=
  iterateLoop (fun i => raw i / initNorm) threshold divergenceLimit maxIterations maxIterations 0 []

/-- The stopping condition of the claim: the normalized residual of
iteration `i` is at or below the threshold, or at or above the
divergence limit. -/
def stopCond (threshold divergenceLimit : ℚ) (res : ℚ) : Prop :=
  res ≤ threshold ∨ divergenceLimit ≤ res

instance (threshold divergenceLimit res : ℚ) :
    Decidable (stopCond threshold divergenceLimit res) := by
  unfold stopCond; infer_instance

/-! ## Configuration validation (`HelmholtzBase.__init__`, `MaxwellDomain.__init__`) -/

/-- The kinds of `ValueError` raised during construction. -/
inductive ConfigError : Type
  | notThreeDim        -- "The refractive index must be a 3D array"
  | badTupleLen        -- "The number of domains must be a 3-tuple"
  | boundaryTooLarge   -- "Domain boundary ... is too small/large for the given domain size"
  | tooFewSlots        -- "n_slots must be at least 2"
  | badPermittivity    -- "Permittivity must be 3-dimensional and complex float32 or float64"
deriving DecidableEq

/-- The validation prefix of `HelmholtzBase.__init__` (helmholtzbase.py
lines 37-55): raises on a non-3-D refractive index, an `n_domains` tuple
whose length is not 3, and on
`n_boundary > self.shape[i] / n_domains[i] // 2` for a non-periodic
axis (true division followed by floor division by 2). -/
def helmholtzValidate (ndim nDomainsLen : ℕ) (shape nDomains : Fin 3 → ℕ)
    (periodic : Fin 3 → Bool) (nBoundary : ℕ) : Option ConfigError :=
  if ndim ≠ 3 then some .notThreeDim
  else if nDomainsLen ≠ 3 then some .badTupleLen
  else if ∃ i : Fin 3, (nBoundary : ℤ) > ⌊(shape i : ℚ) / (nDomains i : ℚ) / 2⌋ ∧ periodic i = false
    then some .boundaryTooLarge
  else none

/-- The validation prefix of `MaxwellDomain.__init__` (maxwelldomain.py
lines 71-79): raises when `n_slots < 2`, when the permittivity is not
3-dimensional *or not complex float32/float64*, and on
`n_boundary > 0.5 * self.shape[i]` for a non-periodic axis. -/
def maxwellValidate (nSlots ndim : ℕ) (complexDtype : Bool) (shape : Fin 3 → ℕ)
    (periodic : Fin 3 → Bool) (nBoundary : ℕ) : Option ConfigError :=
  if nSlots < 2 then some .tooFewSlots
  else if ndim ≠ 3 ∨ complexDtype = false then some .badPermittivity
  else if ∃ i : Fin 3, (nBoundary : ℚ) > (1 / 2) * (shape i : ℚ) ∧ periodic i = false
    then some .boundaryTooLarge
  else none

/-! ## Partitioning (`HelmholtzBase.partition`) -/

/-- `np.ceil(array.shape / n_domains).astype(int)` along one axis. -/
def domainSize (s n : ℕ) : ℕ := (s + n - 1) / n

/-- Start of subdomain `x` along an axis: `x * domain_size`. -/
def partStart (x d : ℕ) : ℕ := x * d

/-- End of subdomain `x` along an axis, as computed by the code:
`np.minimum(start + domain_size, array.shape + 1)`. -/
def partEnd (s x d : ℕ) : ℕ := min (x * d + d) (s + 1)

/-- Size of the dense piece `array[start:end, ...]` along one axis, with
Python slice clamping to the actual array extent `s`. -/
def densePieceSize (s x d : ℕ) : ℕ := min (partEnd s x d) s - min (partStart x d) s

/-- Declared size of the sparse sub-tensor along one axis:
`end - start` as passed to `torch.sparse_coo_tensor(..., size=size, ...)`. -/
def sparseDeclaredSize (s x d : ℕ) : ℕ := partEnd s x d - partStart x d

/-- Bounding-box filter of the sparse partitioning path:
`(indices.T >= [start...]) & (indices.T < [end...])`, all axes. -/
def keepIndex (start stop idx : ℕ × ℕ × ℕ) : Bool :=
  decide (start.1 ≤ idx.1 ∧ idx.1 < stop.1) &&
  decide (start.2.1 ≤ idx.2.1 ∧ idx.2.1 < stop.2.1) &&
  decide (start.2.2 ≤ idx.2.2 ∧ idx.2.2 < stop.2.2)

/-- The sparse partitioning of `HelmholtzBase.partition` for the subdomain
at tile position `x`: filter the COO indices by the bounding box, re-base
them relative to the subdomain origin, and build a sparse tensor with
declared shape `end - start`, or `None` when no entries fall inside.
`s` is the full grid shape and `d` the per-axis `domain_size`. -/
def sparsePartitionPiece (s d x : ℕ × ℕ × ℕ) (indices : List (ℕ × ℕ × ℕ)) :
    Option (List (ℕ × ℕ × ℕ) × (ℕ × ℕ × ℕ)) :=
  let start : ℕ × ℕ × ℕ := (partStart x.1 d.1, partStart x.2.1 d.2.1, partStart x.2.2 d.2.2)
  let stop : ℕ × ℕ × ℕ := (partEnd s.1 x.1 d.1, partEnd s.2.1 x.2.1 d.2.1, partEnd s.2.2 x.2.2 d.2.2)
  let kept := indices.filter (keepIndex start stop)
  if kept.isEmpty then none
  else some (kept.map (fun idx => (idx.1 - start.1, idx.2.1 - start.2.1, idx.2.2 - start.2.2)),
    (stop.1 - start.1, stop.2.1 - start.2.1, stop.2.2 - start.2.2))

/-! ## Tensor shapes and broadcasting (for `MaxwellDomain.inverse_propagator`) -/

/-- Right-aligned check that a tensor of shape `src` may broadcast into an
in-place operation on a tensor of shape `dst` (PyTorch semantics for
`dst.mul_(src)`): reversed dimensions must agree or the `src` dimension
must be 1, and `src` may not have more dimensions than `dst`. -/
def expandableToRev : List ℕ → List ℕ → Bool
  | [], _ => true
  | _ :: _, [] => false
  | a :: as, b :: bs => (a == b || a == 1) && expandableToRev as bs

/-- In-place broadcastability of shape `src` into shape `dst`. -/
def expandableTo (src dst : List ℕ) : Bool :=
  expandableToRev src.reverse dst.reverse

/-- Two-sided broadcast of shapes (PyTorch semantics), reversed lists. -/
def broadcastRev : List ℕ → List ℕ → Option (List ℕ)
  | [], bs => some bs
  | as, [] => some as
  | a :: as, b :: bs =>
    if a = b ∨ a = 1 ∨ b = 1 then (broadcastRev as bs).map (fun r => max a b :: r)
    else none

/-- Two-sided broadcast of two tensor shapes. -/
def broadcastShape (a b : List ℕ) : Option (List ℕ) :=
  (broadcastRev a.reverse b.reverse).map List.reverse

/-- Modelled from the spec: the missing `Domain.coordinates` /
`Domain.coordinates_f` helpers (`wavesim/domain.py` is not in the
sources) return per-axis coordinate arrays broadcast along their axis,
i.e. of 3-D shape `(n, 1, 1)`, `(1, n, 1)` or `(1, 1, n)`. -/
def axisShape (n : ℕ × ℕ × ℕ) (dim : Fin 3) : List ℕ :=
  if dim = 0 then [n.1, 1, 1]
  else if dim = 1 then [1, n.2.1, 1]
  else [1, 1, n.2.2]

/-- Shape of `MaxwellDomain.propagator_kernel`: the scalar `0.0j` (shape
`[]`) accumulated with the three per-axis Laplace kernels by broadcasting
addition (maxwelldomain.py lines 116-118). -/
def maxwellKernelShape (n : ℕ × ℕ × ℕ) : Option (List ℕ) :=
  (broadcastShape [] (axisShape n 0)).bind fun s01 =>
    (broadcastShape s01 (axisShape n 1)).bind fun s012 =>
      broadcastShape s012 (axisShape n 2)

/-- Shape of a `MaxwellDomain` slot after the polarization dimension of
size 3 is appended by `torch.cat(..., dim=-1)` (maxwelldomain.py lines
176-177). -/
def maxwellSlotShape (n : ℕ × ℕ × ℕ) : List ℕ :=
  [n.1, n.2.1, n.2.2, 3]

/-! ## Theorems about the iteration driver (C7) -/

theorem iterateLoop_inv (residual : ℕ → ℚ) (threshold divergenceLimit : ℚ)
    (maxIterations : ℕ) :
    ∀ fuel i log L n,
      i + fuel = maxIterations →
      iterateLoop residual threshold divergenceLimit maxIterations fuel i log = (L, n) →
      L = log ++ (List.range' i (n - i)).map residual ∧
      i ≤ n ∧ n ≤ maxIterations ∧
      (∀ j, i ≤ j → j + 1 < n → ¬ stopCond threshold divergenceLimit (residual j)) ∧
      (n = maxIterations ∨ stopCond threshold divergenceLimit (residual (n - 1))) := by
  intro fuel
  induction fuel with
  | zero =>
    intro i log L n hsum heq
    simp only [iterateLoop] at heq
    injection heq with h1 h2
    subst h1; subst h2
    refine ⟨by simp [show maxIterations - i = 0 by omega], by omega, le_rfl, ?_, Or.inl rfl⟩
    intro j hij hj1
    omega
  | succ fuel ih =>
    intro i log L n hsum heq
    rw [iterateLoop] at heq
    by_cases hstop : stateNext threshold divergenceLimit maxIterations (residual i) i
    · rw [if_pos hstop] at heq
      injection heq with h1 h2
      subst h1; subst h2
      simp only [stateNext, Bool.or_eq_true, decide_eq_true_eq] at hstop
      refine ⟨?_, by omega, by omega, ?_, ?_⟩
      · rw [show i + 1 - i = 1 by omega, List.range'_one]
        simp
      · intro j hij hj1
        omega
      · rcases hstop with (h | h) | h
        · right; rw [show i + 1 - 1 = i by omega]; exact Or.inl h
        · right; rw [show i + 1 - 1 = i by omega]; exact Or.inr h
        · left; omega
    · rw [if_neg hstop] at heq
      have hnostate :
          ¬ (residual i ≤ threshold ∨ divergenceLimit ≤ residual i ∨ maxIterations - 1 ≤ i) := by
        intro hor
        apply hstop
        simp only [stateNext, Bool.or_eq_true, decide_eq_true_eq]
        tauto
      push_neg at hnostate
      obtain ⟨hL, hin, hnmax, hnostop, hlast⟩ :=
        ih (i + 1) (log ++ [residual i]) L n (by omega) heq
      refine ⟨?_, by omega, hnmax, ?_, hlast⟩
      · rw [hL, show n - i = (n - (i + 1)) + 1 by omega, List.range'_succ]
        simp
      · intro j hij hj1
        rcases Nat.eq_or_lt_of_le hij with rfl | hlt
        · intro hsc
          rcases hsc with h | h
          · exact absurd h (not_le_of_lt hnostate.1)
          · exact absurd h (not_le_of_lt hnostate.2.1)
        · exact hnostop j (by omega) hj1

/-- **C7**: the iteration driver runs at most `max_iterations` iterations,
logs the normalized full-domain residual (`raw i / initNorm`) of every
executed iteration, stops after the first iteration whose normalized
residual is at or below the threshold or at or above the divergence
limit, and the termination check happens once per iteration after that
iteration's residual has been logged (the logged list has exactly one
entry per executed iteration, including the stopping one). -/
theorem iteration_driver_stops_correctly (raw : ℕ → ℚ)
    (initNorm threshold divergenceLimit : ℚ) (maxIterations : ℕ) (L : List ℚ) (n : ℕ)
    (h : runIterate raw initNorm threshold divergenceLimit maxIterations = (L, n)) :
    n ≤ maxIterations ∧
    L = (List.range n).map (fun i => raw i / initNorm) ∧
    (∀ j, j + 1 < n → ¬ stopCond threshold divergenceLimit (raw j / initNorm)) ∧
    (n = maxIterations ∨ stopCond threshold divergenceLimit (raw (n - 1) / initNorm)) := by
  obtain ⟨hL, _, hmax, hns, hlast⟩ :=
    iterateLoop_inv (fun i => raw i / initNorm) threshold divergenceLimit maxIterations
      maxIterations 0 [] L n (by omega) h
  refine ⟨hmax, ?_, ?_, hlast⟩
  · rw [hL]
    simp [List.range_eq_range']
  · intro j hj
    exact hns j (Nat.zero_le j) hj

theorem iteration_driver_stops_correctly_witness :
    (3 : ℕ) ≤ 10 ∧
    ([(1 : ℚ), 1, 0]) = (List.range 3).map (fun i => (if i = 2 then (0 : ℚ) else 1) / 1) ∧
    (∀ j, j + 1 < 3 → ¬ stopCond 0 1000 ((if j = 2 then (0 : ℚ) else 1) / 1)) ∧
    ((3 : ℕ) = 10 ∨ stopCond 0 1000 ((if (3 : ℕ) - 1 = 2 then (0 : ℚ) else 1) / 1)) :=
  iteration_driver_stops_correctly (fun i => if i = 2 then (0 : ℚ) else 1) 1 0 1000 10
    [1, 1, 0] 3 (by simp [runIterate, iterateLoop, stateNext, (zero_lt_one (α := ℚ)).not_le])

/-! ## Theorems about construction-time validation (C8) -/

theorem boundary_floor_iff (nB s n : ℕ) :
    ((nB : ℤ) > ⌊(s : ℚ) / (n : ℚ) / 2⌋) ↔ ((s : ℚ) / (2 * (n : ℚ)) < (nB : ℚ)) := by
  have hcast : (((nB : ℤ) : ℚ)) = (nB : ℚ) := by push_cast; ring
  rw [gt_iff_lt, Int.floor_lt, hcast, div_div, mul_comm (n : ℚ) 2]

/-- **C8** counterexample: a 3-D permittivity map with `n_slots = 2`,
`n_boundary = 0` and a 3-tuple of domains satisfies every condition the
claim enumerates, yet `MaxwellDomain.__init__` raises a `ValueError`
because the dtype is not complex float32/float64. -/
theorem construction_error_dtype_counterexample :
    maxwellValidate 2 3 false (fun _ => 10) (fun _ => false) 0 = some ConfigError.badPermittivity ∧
    (3 : ℕ) = 3 ∧ 2 ≤ (2 : ℕ) ∧ (∀ _i : Fin 3, ((0 : ℕ) : ℚ) ≤ ((10 : ℕ) : ℚ) / 2) := by
  refine ⟨?_, rfl, le_refl 2, fun _i => by positivity⟩
  simp [maxwellValidate]

/-- **C8** (amended): construction raises a `ValueError` exactly when the
index/permittivity map is not 3-dimensional, the `n_domains` tuple does
not have length 3, `n_slots < 2`, `n_boundary` exceeds half the
(sub)domain length along a non-periodic axis, **or (amendment) the
permittivity dtype is not complex float32/float64**; otherwise no error
is raised.  (`n_domains` entries are positive: a zero entry would be a
`ZeroDivisionError` in Python, outside the model.) -/
theorem construction_validation_iff (ndim nDomainsLen nSlots : ℕ)
    (shape nDomains : Fin 3 → ℕ) (periodic : Fin 3 → Bool) (nBoundary : ℕ)
    (complexDtype : Bool) (hpos : ∀ i, 0 < nDomains i) :
    (helmholtzValidate ndim nDomainsLen shape nDomains periodic nBoundary = none ↔
      (ndim = 3 ∧ nDomainsLen = 3 ∧
        ∀ i, periodic i = true ∨ (nBoundary : ℚ) ≤ (shape i : ℚ) / (2 * (nDomains i : ℚ)))) ∧
    (maxwellValidate nSlots ndim complexDtype shape periodic nBoundary = none ↔
      (2 ≤ nSlots ∧ ndim = 3 ∧ complexDtype = true ∧
        ∀ i, periodic i = true ∨ (nBoundary : ℚ) ≤ (shape i : ℚ) / 2)) := by
  clear hpos
  constructor
  · unfold helmholtzValidate
    split_ifs with h1 h2 h3
    · simp [h1]
    · simp [h1, h2]
    · simp only [reduceCtorEq, false_iff]
      rintro ⟨-, -, hall⟩
      obtain ⟨i, hi, hper⟩ := h3
      rcases hall i with hp | hle
      · rw [hper] at hp; cases hp
      · exact absurd hle (not_le_of_lt ((boundary_floor_iff nBoundary (shape i) (nDomains i)).mp hi))
    · push_neg at h3
      simp only [true_iff]
      refine ⟨by omega, by omega, fun i => ?_⟩
      cases hpb : periodic i with
      | true => exact Or.inl rfl
      | false =>
        right
        by_contra hlt
        push_neg at hlt
        exact (h3 i ((boundary_floor_iff nBoundary (shape i) (nDomains i)).mpr hlt)) hpb
  · unfold maxwellValidate
    split_ifs with h1 h2 h3
    · simp only [reduceCtorEq, false_iff]
      rintro ⟨hs, -⟩
      omega
    · rcases h2 with h2 | h2
      · simp [h2]
      · simp [h2]
    · simp only [reduceCtorEq, false_iff]
      rintro ⟨-, -, -, hall⟩
      obtain ⟨i, hi, hper⟩ := h3
      rcases hall i with hp | hle
      · rw [hper] at hp; cases hp
      · rw [one_div_mul_eq_div] at hi
        exact absurd hle (not_le_of_lt hi)
    · push_neg at h2 h3
      simp only [true_iff]
      have hct : complexDtype = true := by
        cases hc : complexDtype with
        | true => rfl
        | false => exact absurd hc h2.2
      refine ⟨by omega, h2.1, hct, fun i => ?_⟩
      cases hpb : periodic i with
      | true => exact Or.inl rfl
      | false =>
        right
        by_contra hlt
        push_neg at hlt
        refine (h3 i ?_) hpb
        rw [one_div_mul_eq_div]
        exact hlt

theorem construction_validation_iff_witness :
    (helmholtzValidate 3 3 (fun _ => 8) (fun _ => 2) (fun _ => false) 2 = none ↔
      ((3 : ℕ) = 3 ∧ (3 : ℕ) = 3 ∧
        ∀ i : Fin 3, (false = true) ∨ ((2 : ℕ) : ℚ) ≤ (((8 : ℕ)) : ℚ) / (2 * (((2 : ℕ)) : ℚ)))) ∧
    (maxwellValidate 2 3 true (fun _ => 8) (fun _ => false) 2 = none ↔
      (2 ≤ 2 ∧ (3 : ℕ) = 3 ∧ (true = true) ∧
        ∀ i : Fin 3, (false = true) ∨ ((2 : ℕ) : ℚ) ≤ (((8 : ℕ)) : ℚ) / 2)) :=
  construction_validation_iff 3 3 2 (fun _ => 8) (fun _ => 2) (fun _ => false) 2 true
    (fun _i => Nat.succ_pos 1)

/-! ## Theorems about partitioning (C9) -/

/-- **C9**: evaluation of `HelmholtzBase.partition` at failing inputs.
For a grid of extent 5 split into 2 domains, `domain_size = 3` and the
last subdomain has dense extent 2, but the sparse path declares extent
`min(start+size, shape+1) - start = 3` for it, so the declared shape of
the sparse sub-tensor does not equal the subdomain's shape (the `+1` is
an off-by-one).  Moreover for extent 5 split into 4 domains the dense
piece sizes are `2,2,1,0`: a subdomain other than the last is smaller,
contradicting the docstring "the last domain will be slightly smaller". -/
theorem partition_shape_bug :
    domainSize 5 2 = 3 ∧
    sparsePartitionPiece (5, 1, 1) (3, 1, 1) (1, 0, 0) [(4, 0, 0)] =
      some ([(1, 0, 0)], (3, 1, 1)) ∧
    densePieceSize 5 1 3 = 2 ∧
    sparseDeclaredSize 5 1 3 = 3 ∧
    sparseDeclaredSize 5 1 3 ≠ densePieceSize 5 1 3 ∧
    domainSize 5 4 = 2 ∧
    densePieceSize 5 0 2 = 2 ∧ densePieceSize 5 2 2 = 1 ∧ densePieceSize 5 3 2 = 0 := by
  decide

/-! ## Theorems about the Maxwell inverse propagator shapes (C3) -/

/-- **C3**: evaluation of the code at the failing inputs used by
`test_maxwell.py::test_propagator`.  The `propagator_kernel` of a
`MaxwellDomain` is a 3-D tensor of the spatial shape, while the slots are
4-D with a trailing polarization axis of size 3; the in-place
`mul_(self.propagator_kernel)` of `inverse_propagator` therefore fails to
broadcast for both test shapes, so the claimed round-trip identity cannot
hold (the test raises instead of passing). -/
theorem inverse_propagator_broadcast_bug :
    maxwellKernelShape (128, 100, 93) = some [128, 100, 93] ∧
    maxwellSlotShape (128, 100, 93) = [128, 100, 93, 3] ∧
    expandableTo [128, 100, 93] (maxwellSlotShape (128, 100, 93)) = false ∧
    maxwellKernelShape (50, 49, 1) = some [50, 49, 1] ∧
    expandableTo [50, 49, 1] (maxwellSlotShape (50, 49, 1)) = false := by
  decide

/-! ## Calibration (`HelmholtzBase.__init__` lines 65-84,
`MaxwellDomain.initialize_shift` / `initialize_scale`) -/

/-- Minimum of a list of reals (model of `torch.aminmax` lower value;
the tensors involved are nonempty, the `[]` case is a don't-care). -/
def listMin : List ℝ → ℝ
  | [] => 0
  | x :: xs => xs.foldl min x

/-- Maximum of a list of reals (model of `torch.aminmax` upper value). -/
def listMax : List ℝ → ℝ
  | [] => 0
  | x :: xs => xs.foldl max x

/-- Per-domain data entering calibration: the flattened raw scattering
potential `V_raw` and the wrap-matrix operator norm `Vwrap_norm`
(computed at construction as `sum(norm(W, ord=2))`). -/
structure CalDomain where
  Vraw : List ℂ
  VwrapNorm : ℝ

/-- `Domain.initialize_shift(shift)`: subtracts `shift` from `V_raw` and
returns `self._x[0].view(-1).abs().max().item()`, the maximum modulus of
the shifted potential. -/
noncomputable def initShift (d : CalDomain) (shift : ℂ) : ℝ :=
  (d.Vraw.map (fun v => Complex.abs (v - shift))).foldl max 0

/-- `HelmholtzBase.__init__` lines 66-71: the optimal shift
`center = 0.5*(r_min + r_max) + 0.5j*(i_min + i_max)` where the real and
imaginary bounds are taken across all subdomains' `V_bounds`. -/
noncomputable def helmholtzCenter (ds : List CalDomain) : ℂ :=
  (0.5 * (listMin (ds.map fun d => listMin (d.Vraw.map Complex.re)) +
          listMax (ds.map fun d => listMax (d.Vraw.map Complex.re))) : ℝ) +
  Complex.I * ((0.5 * (listMin (ds.map fun d => listMin (d.Vraw.map Complex.im)) +
          listMax (ds.map fun d => listMax (d.Vraw.map Complex.im)))) : ℝ)

/-- `HelmholtzBase.__init__` lines 74-77: `Vscat_norm` accumulated with
`np.maximum` from 0.0 over every domain's `initialize_shift(center)`. -/
noncomputable def helmholtzVscatNorm (ds : List CalDomain) (center : ℂ) : ℝ :=
  ds.foldl (fun acc d => max acc (initShift d center)) 0

/-- `HelmholtzBase.__init__` lines 75-78: `Vwrap_norm` accumulated with
`np.maximum` from 0.0 over every domain's `Vwrap_norm`. -/
noncomputable def helmholtzVwrapNorm (ds : List CalDomain) : ℝ :=
  ds.foldl (fun acc d => max acc d.VwrapNorm) 0

/-- `HelmholtzBase.__init__` line 82:
`self.scale = 1.0j / (Vscat_norm + Vwrap_norm)`, the scale passed to
every domain's `initialize_scale`. -/
noncomputable def helmholtzScale (ds : List CalDomain) : ℂ :=
  Complex.I / ((helmholtzVscatNorm ds (helmholtzCenter ds) + helmholtzVwrapNorm ds : ℝ) : ℂ)

/-- The scale prescribed by the claim and the spec:
`0.95·i / (V_scat_norm + V_wrap_norm)`. -/
noncomputable def claimedScale (ds : List CalDomain) : ℂ :=
  ((0.95 : ℝ) : ℂ) * Complex.I /
    ((helmholtzVscatNorm ds (helmholtzCenter ds) + helmholtzVwrapNorm ds : ℝ) : ℂ)

/-- The quantity bounded by the contraction claim for one calibrated
domain: `|scale| · (max|V_raw − shift| + Vwrap_norm)`. -/
noncomputable def calibratedVNorm (d : CalDomain) (shift scale : ℂ) : ℝ :=
  Complex.abs scale * (initShift d shift + d.VwrapNorm)

/-- **C1**: evaluation of the code at a failing input.  For a single
domain with `V_raw = {-2, 2}` and zero wrap norm, the center is 0, the
scat norm is 2, and `HelmholtzBase.__init__` passes `scale = i/2` to
`initialize_scale` — not the `0.95·i/2` the claim (and the spec, and the
stand-alone path `MaxwellDomain.__init__` line 148) prescribe: the 0.95
margin is missing from `helmholtzbase.py` line 82. -/
theorem helmholtz_scale_missing_margin :
    helmholtzScale [⟨[-2, 2], 0⟩] = Complex.I / 2 ∧
    claimedScale [⟨[-2, 2], 0⟩] = ((0.95 : ℝ) : ℂ) * Complex.I / 2 ∧
    helmholtzScale [⟨[-2, 2], 0⟩] ≠ claimedScale [⟨[-2, 2], 0⟩] := by
  have hc : helmholtzCenter [⟨[-2, 2], 0⟩] = 0 := by
    simp [helmholtzCenter, listMin, listMax]
  have hs : helmholtzScale [⟨[-2, 2], 0⟩] = Complex.I / 2 := by
    simp [helmholtzScale, helmholtzVscatNorm, helmholtzVwrapNorm, hc, initShift]
  have hcl : claimedScale [⟨[-2, 2], 0⟩] = ((0.95 : ℝ) : ℂ) * Complex.I / 2 := by
    simp [claimedScale, helmholtzVscatNorm, helmholtzVwrapNorm, hc, initShift]
  refine ⟨hs, hcl, ?_⟩
  rw [hs, hcl]
  intro h
  have him := congrArg Complex.im h
  simp [Complex.div_im] at him
  norm_num at him

/-- **C2**: evaluation of the code at a failing input.  After the
calibration performed by `HelmholtzBase.__init__` on a single domain
with `V_raw = {-2, 2}` and zero wrap norm, the scaled potential norm
`|scale|·(max|V_raw − shift| + Vwrap_norm)` equals exactly 1 — it is not
strictly below 1, because the 0.95 margin is missing from the scale. -/
theorem calibrated_norm_not_strict_contraction :
    calibratedVNorm ⟨[-2, 2], 0⟩ (helmholtzCenter [⟨[-2, 2], 0⟩])
      (helmholtzScale [⟨[-2, 2], 0⟩]) = 1 ∧
    ¬ (calibratedVNorm ⟨[-2, 2], 0⟩ (helmholtzCenter [⟨[-2, 2], 0⟩])
      (helmholtzScale [⟨[-2, 2], 0⟩]) < 1) := by
  have hc : helmholtzCenter [⟨[-2, 2], 0⟩] = 0 := by
    simp [helmholtzCenter, listMin, listMax]
  have hs : helmholtzScale [⟨[-2, 2], 0⟩] = Complex.I / 2 := by
    simp [helmholtzScale, helmholtzVscatNorm, helmholtzVwrapNorm, hc, initShift]
  have h1 : calibratedVNorm ⟨[-2, 2], 0⟩ (helmholtzCenter [⟨[-2, 2], 0⟩])
      (helmholtzScale [⟨[-2, 2], 0⟩]) = 1 := by
    rw [calibratedVNorm, hc, hs]
    simp [initShift, max_def, Complex.abs_apply, Complex.normSq_div]
  exact ⟨h1, by rw [h1]; exact lt_irrefl 1⟩

/-! ## Per-domain operators: kernel calibration and the Maxwell propagator
(`MaxwellDomain.initialize_shift`, `initialize_scale`, `propagator`) -/

section Operators

variable {Idx : Type}

/-- `initialize_shift` on the kernel: `self.propagator_kernel.add_(shift)`
applied to the raw Laplace kernel `L`. -/
def shiftKernel (L : Idx → ℂ) (shift : ℂ) : Idx → ℂ := fun j => L j + shift

/-- `initialize_scale` on the kernel:
`multiply_(scale)`, `add_(1.0)`, `reciprocal_()`. -/
noncomputable def scaleKernel (k : Idx → ℂ) (scale : ℂ) : Idx → ℂ :=
  fun j => (k j * scale + 1)⁻¹

/-- `MaxwellDomain.propagator` (maxwelldomain.py lines 290-301) acting on
the slot store.  Fourier space is abstracted by the index type `Idx`; the
spatial FFT/IFFT of one component are the abstract maps `fft`/`ifft`,
`f d` is the Fourier coordinate array `self._f[d]`, and `kernel` the
stored forward kernel.  Steps, in code order: per-component `fftn` of
`slot_in` into `slot_out`; `div = scale·Σ f[d]·out[d] / (scale·shift+1)`;
per-component `out[d] += f[d]·div` then `out[d] *= kernel`; per-component
`ifftn` in place. -/
noncomputable def maxwellPropagatorRun (fft ifft : (Idx → ℂ) → Idx → ℂ)
    (f : Fin 3 → Idx → ℂ) (kernel : Idx → ℂ) (scale shift : ℂ)
    (store : ℕ → Idx → Fin 3 → ℂ) (slotIn slotOut : ℕ) : ℕ → Idx → Fin 3 → ℂ :=
  let s1 := Function.update store slotOut (fun j c => fft (fun j2 => store slotIn j2 c) j)
  let dv := fun j => scale * (∑ c : Fin 3, f c j * s1 slotOut j c) / (scale * shift + 1)
  let s2 := Function.update s1 slotOut (fun j c => (s1 slotOut j c + f c j * dv j) * kernel j)
  Function.update s2 slotOut (fun j c => ifft (fun j2 => s2 slotOut j2 c) j)

/-- **C5**: for every 3-component input field, the Maxwell propagator
computes per Fourier bin `F = FFT(E)` componentwise,
`d = scale·(p·F)/(scale·shift+1)`, `G[c] = K·(F[c] + p[c]·d)` and returns
`IFFT(G)` componentwise, where `K = 1/(scale·(L+shift)+1)` is the kernel
produced by the shift/scale calibration steps.  Holds also when
`slot_in = slot_out` (each in-place step touches only its own component,
and `div` is materialised before the update loop). -/
theorem maxwell_propagator_formula (fft ifft : (Idx → ℂ) → Idx → ℂ) (f : Fin 3 → Idx → ℂ)
    (L : Idx → ℂ) (scale shift : ℂ) (store : ℕ → Idx → Fin 3 → ℂ) (slotIn slotOut : ℕ)
    (j : Idx) (c : Fin 3) :
    maxwellPropagatorRun fft ifft f (scaleKernel (shiftKernel L shift) scale) scale shift
        store slotIn slotOut slotOut j c =
      ifft (fun j2 =>
        (1 / (scale * (L j2 + shift) + 1)) *
          (fft (fun j3 => store slotIn j3 c) j2 +
            f c j2 *
              (scale * (∑ c2 : Fin 3, f c2 j2 * fft (fun j3 => store slotIn j3 c2) j2) /
                (scale * shift + 1)))) j := by
  unfold maxwellPropagatorRun
  simp only [Function.update_same]
  congr 1
  funext j2
  simp only [Function.update_same, scaleKernel, shiftKernel]
  rw [one_div]
  ring

/-! ## Composite medium: wrap and transfer corrections (C4)
(`HelmholtzBase.medium` lines 145-172, `MaxwellDomain.apply_corrections`) -/

/-- Value of an optional edge slab at an index; a missing slab (periodic
edge or grid boundary) contributes 0. -/
def optEdge (o : Option (Idx → ℂ)) (i : Idx) : ℂ :=
  match o with
  | some w => w i
  | none => 0

/-- One trip of the `for edge in range(6)` loop of
`MaxwellDomain.apply_corrections`: wrap present and transfer absent adds
the wrap slab on the edge region; transfer present and wrap absent
subtracts the transfer slab; both present adds their difference; neither
present is a no-op.  `inEdge e` is the membership predicate of
`self.edge_slices[e]`. -/
def correctionStep (inEdge : Fin 6 → Idx → Bool) (wrap transfer : Fin 6 → Option (Idx → ℂ))
    (acc : Idx → ℂ) (e : Fin 6) : Idx → ℂ :=
  match wrap e, transfer e with
  | some w, none => fun i => if inEdge e i then acc i + w i else acc i
  | none, some t => fun i => if inEdge e i then acc i - t i else acc i
  | some w, some t => fun i => if inEdge e i then acc i + (w i - t i) else acc i
  | none, none => acc

/-- `MaxwellDomain.apply_corrections(wrap, transfer, slot)`: the six edge
updates applied in place, in order, to the slot contents `x`. -/
def applyCorrections (inEdge : Fin 6 → Idx → Bool) (wrap transfer : Fin 6 → Option (Idx → ℂ))
    (x : Idx → ℂ) : Idx → ℂ :=
  (List.finRange 6).foldl (correctionStep inEdge wrap transfer) x

theorem applyCorrections_foldl (inEdge : Fin 6 → Idx → Bool)
    (wrap transfer : Fin 6 → Option (Idx → ℂ)) :
    ∀ (l : List (Fin 6)) (x : Idx → ℂ) (i : Idx),
      (l.foldl (correctionStep inEdge wrap transfer) x) i =
        x i + (l.map (fun e =>
          if inEdge e i then optEdge (wrap e) i - optEdge (transfer e) i else 0)).sum := by
  intro l
  induction l with
  | nil => intro x i; simp
  | cons e l ih =>
    intro x i
    simp only [List.foldl_cons, List.map_cons, List.sum_cons]
    rw [ih]
    have hstep : correctionStep inEdge wrap transfer x e i =
        x i + (if inEdge e i then optEdge (wrap e) i - optEdge (transfer e) i else 0) := by
      unfold correctionStep optEdge
      rcases hw : wrap e with _ | w <;> rcases ht : transfer e with _ | t <;>
        by_cases hie : inEdge e i <;> simp [hie] <;> ring
    rw [hstep]
    ring

theorem applyCorrections_eq (inEdge : Fin 6 → Idx → Bool)
    (wrap transfer : Fin 6 → Option (Idx → ℂ)) (x : Idx → ℂ) (i : Idx) :
    applyCorrections inEdge wrap transfer x i =
      x i + ∑ e : Fin 6,
        (if inEdge e i then optEdge (wrap e) i - optEdge (transfer e) i else 0) := by
  rw [applyCorrections, applyCorrections_foldl]
  congr 1

/-- Swap of opposite faces used for the wrap corrections:
`domain_edges[x0, x1, x2, (1, 0, 3, 2, 5, 4)]`. -/
def swapEdge (e : Fin 6) : Fin 6 :=
  if e = 0 then 1 else if e = 1 then 0 else if e = 2 then 3
  else if e = 3 then 2 else if e = 4 then 5 else 4

/-- Source of the transfer correction of each face of the domain at tile
position `p` in a grid of `n` domains (helmholtzbase.py lines 163-170):
the neighbour position and which of its edge slabs is taken, or `none`
at the grid boundary. -/
def transferSource (n p : ℕ × ℕ × ℕ) : Fin 6 → Option ((ℕ × ℕ × ℕ) × Fin 6) := fun e =>
  if e = 0 then (if 0 < p.1 then some ((p.1 - 1, p.2.1, p.2.2), 1) else none)
  else if e = 1 then (if p.1 < n.1 - 1 then some ((p.1 + 1, p.2.1, p.2.2), 0) else none)
  else if e = 2 then (if 0 < p.2.1 then some ((p.1, p.2.1 - 1, p.2.2), 3) else none)
  else if e = 3 then (if p.2.1 < n.2.1 - 1 then some ((p.1, p.2.1 + 1, p.2.2), 2) else none)
  else if e = 4 then (if 0 < p.2.2 then some ((p.1, p.2.1, p.2.2 - 1), 5) else none)
  else (if p.2.2 < n.2.2 - 1 then some ((p.1, p.2.1, p.2.2 + 1), 4) else none)

/-- `HelmholtzBase.medium(slot_in, slot_out)` for the domain at tile
position `p`: after every domain's `compute_corrections(slot_in)`
(whose resulting edge slabs are the given `edges` map) the local medium
`out = B·in` runs, then `apply_corrections` with the swapped own slabs
as wrap corrections and the neighbours' opposite slabs as transfer
corrections. -/
def multiMedium (n : ℕ × ℕ × ℕ) (B : ℕ × ℕ × ℕ → Idx → ℂ)
    (edges : ℕ × ℕ × ℕ → Fin 6 → Option (Idx → ℂ)) (inEdge : Fin 6 → Idx → Bool)
    (slotIn : ℕ × ℕ × ℕ → Idx → ℂ) : ℕ × ℕ × ℕ → Idx → ℂ :=
  fun p =>
    applyCorrections inEdge (fun e => edges p (swapEdge e))
      (fun e => (transferSource n p e).bind fun q => edges q.1 q.2)
      (fun i => B p i * slotIn p i)

theorem optEdge_bind_if {c : Prop} [Decidable c] (q : (ℕ × ℕ × ℕ) × Fin 6)
    (edges : ℕ × ℕ × ℕ → Fin 6 → Option (Idx → ℂ)) (i : Idx) :
    optEdge ((if c then some q else none).bind fun r => edges r.1 r.2) i =
      (if c then optEdge (edges q.1 q.2) i else 0) := by
  by_cases h : c <;> simp [h, optEdge]

theorem swapEdge_e0 : swapEdge 0 = 1 := rfl

theorem swapEdge_e1 : swapEdge 1 = 0 := rfl

theorem swapEdge_e2 : swapEdge 2 = 3 := rfl

theorem swapEdge_e3 : swapEdge 3 = 2 := rfl

theorem swapEdge_e4 : swapEdge 4 = 5 := rfl

theorem swapEdge_e5 : swapEdge 5 = 4 := rfl

theorem transferSource_e0 (n p : ℕ × ℕ × ℕ) : transferSource n p 0 =
    (if 0 < p.1 then some ((p.1 - 1, p.2.1, p.2.2), 1) else none) := rfl

theorem transferSource_e1 (n p : ℕ × ℕ × ℕ) : transferSource n p 1 =
    (if p.1 < n.1 - 1 then some ((p.1 + 1, p.2.1, p.2.2), 0) else none) := rfl

theorem transferSource_e2 (n p : ℕ × ℕ × ℕ) : transferSource n p 2 =
    (if 0 < p.2.1 then some ((p.1, p.2.1 - 1, p.2.2), 3) else none) := rfl

theorem transferSource_e3 (n p : ℕ × ℕ × ℕ) : transferSource n p 3 =
    (if p.2.1 < n.2.1 - 1 then some ((p.1, p.2.1 + 1, p.2.2), 2) else none) := rfl

theorem transferSource_e4 (n p : ℕ × ℕ × ℕ) : transferSource n p 4 =
    (if 0 < p.2.2 then some ((p.1, p.2.1, p.2.2 - 1), 5) else none) := rfl

theorem transferSource_e5 (n p : ℕ × ℕ × ℕ) : transferSource n p 5 =
    (if p.2.2 < n.2.2 - 1 then some ((p.1, p.2.1, p.2.2 + 1), 4) else none) := rfl

/-- **C4**: in the composite `medium`, each domain's `slot_out` equals the
local elementwise `B·in` with, on each of its six edge regions, its own
opposite edge slab added (faces swapped 0↔1, 2↔3, 4↔5) and the
corresponding-opposite slab of the neighbouring subdomain subtracted
(the neighbour on the −x axis contributes its high-x slab to the low-x
face, and so on); a missing slab — periodic edge (`None` in `edges`) or
no neighbour — contributes nothing. -/
theorem multi_medium_wrap_transfer (n : ℕ × ℕ × ℕ) (B : ℕ × ℕ × ℕ → Idx → ℂ)
    (edges : ℕ × ℕ × ℕ → Fin 6 → Option (Idx → ℂ)) (inEdge : Fin 6 → Idx → Bool)
    (slotIn : ℕ × ℕ × ℕ → Idx → ℂ) (p : ℕ × ℕ × ℕ) (i : Idx) :
    multiMedium n B edges inEdge slotIn p i =
      B p i * slotIn p i
      + (if inEdge 0 i then optEdge (edges p 1) i -
            (if 0 < p.1 then optEdge (edges (p.1 - 1, p.2.1, p.2.2) 1) i else 0) else 0)
      + (if inEdge 1 i then optEdge (edges p 0) i -
            (if p.1 < n.1 - 1 then optEdge (edges (p.1 + 1, p.2.1, p.2.2) 0) i else 0) else 0)
      + (if inEdge 2 i then optEdge (edges p 3) i -
            (if 0 < p.2.1 then optEdge (edges (p.1, p.2.1 - 1, p.2.2) 3) i else 0) else 0)
      + (if inEdge 3 i then optEdge (edges p 2) i -
            (if p.2.1 < n.2.1 - 1 then optEdge (edges (p.1, p.2.1 + 1, p.2.2) 2) i else 0) else 0)
      + (if inEdge 4 i then optEdge (edges p 5) i -
            (if 0 < p.2.2 then optEdge (edges (p.1, p.2.1, p.2.2 - 1) 5) i else 0) else 0)
      + (if inEdge 5 i then optEdge (edges p 4) i -
            (if p.2.2 < n.2.2 - 1 then optEdge (edges (p.1, p.2.1, p.2.2 + 1) 4) i else 0) else 0) := by
  rw [multiMedium, applyCorrections_eq, Fin.sum_univ_six]
  simp only [swapEdge_e0, swapEdge_e1, swapEdge_e2, swapEdge_e3, swapEdge_e4, swapEdge_e5,
    transferSource_e0, transferSource_e1, transferSource_e2, transferSource_e3,
    transferSource_e4, transferSource_e5, optEdge_bind_if]
  ring

/-! ## Disabling the wrap correction with `n_boundary = 0` (C10) -/

/-- `MaxwellDomain.__init__` lines 83-84: `periodic` is replaced by
`[True, True, True]` when `n_boundary` is 0. -/
def effectivePeriodic (nBoundary : ℕ) (periodic : Fin 3 → Bool) : Fin 3 → Bool :=
  if 0 < nBoundary then periodic else fun _ => true

/-- Axis of an edge index: `dim = edge // 2`. -/
def edgeDim (e : Fin 6) : Fin 3 := ⟨e.val / 2, by omega⟩

/-- `MaxwellDomain.__init__` lines 102-109: the edge buffers, `None` on
axes that are (effectively) periodic, a zero buffer `buf e` otherwise. -/
def initialEdges {Slab : Type} (periodicEff : Fin 3 → Bool) (buf : Fin 6 → Slab) :
    Fin 6 → Option Slab :=
  fun e => if periodicEff (edgeDim e) then none else some (buf e)

/-- `MaxwellDomain.__init__` lines 143-168: the selection of the `Vwrap`
matrices (`M` is the type of wrap matrices): `[None]*3` in stand-alone
mode; the provided matrices when a `Vwrap` argument is given; otherwise
the computed matrix on each non-periodic axis and `None` on periodic
axes. -/
def maxwellVwrap {M : Type} (standAlone : Bool) (VwrapArg : Option (Fin 3 → Option M))
    (periodicEff : Fin 3 → Bool) (computed : Fin 3 → M) : Fin 3 → Option M :=
  if standAlone then fun _ => none
  else
    match VwrapArg with
    | some W => W
    | none => fun d => if periodicEff d then none else some (computed d)

/-- `MaxwellDomain.__init__` line 171: `Vwrap_norm` is the sum of the
norms of the non-`None` entries of `Vwrap`. -/
def maxwellVwrapNorm {M : Type} (normFn : M → ℝ) (V : Fin 3 → Option M) : ℝ :=
  ∑ d : Fin 3, (match V d with | some W => normFn W | none => 0)

/-- `MaxwellDomain.compute_corrections` (lines 393-410): each edge whose
axis has `Vwrap[dim] = None` is skipped (`continue`); otherwise the slab
is recomputed (abstracted as `newSlab e`) and stored in `edges[e]`. -/
def computeCorrections {M Slab : Type} (Vwrap : Fin 3 → Option M)
    (edges : Fin 6 → Option Slab) (newSlab : Fin 6 → Slab) : Fin 6 → Option Slab :=
  fun e =>
    match Vwrap (edgeDim e) with
    | none => edges e
    | some _ => some (newSlab e)

/-- **C10** counterexample: constructing a (non-stand-alone) domain with
`n_boundary = 0` but an explicit `Vwrap` argument does *not* give
`Vwrap = [None]*3` nor `Vwrap_norm = 0`: the provided matrices are used
unconditionally (maxwelldomain.py lines 149-151), so the claim fails as
stated. -/
theorem vwrap_disabled_counterexample :
    maxwellVwrap false (some (fun d => if d = 0 then some () else none))
        (effectivePeriodic 0 (fun _ => false)) (fun _ => ()) 0 = some () ∧
    maxwellVwrapNorm (fun _ => (1 : ℝ))
      (maxwellVwrap false (some (fun d => if d = 0 then some () else none))
        (effectivePeriodic 0 (fun _ => false)) (fun _ => ())) = 1 ∧
    ((1 : ℝ) ≠ 0) := by
  refine ⟨rfl, ?_, one_ne_zero⟩
  simp [maxwellVwrap, maxwellVwrapNorm, Fin.sum_univ_three]

/-- **C10** (amended): constructing a Domain with `n_boundary = 0` and
*no explicit `Vwrap` argument* (or in stand-alone mode, which ignores the
argument) forces all three axes periodic regardless of the `periodic`
argument; then every `Vwrap[dim]` is `None`, `Vwrap_norm` is 0, every
edge buffer is `None`, `compute_corrections` leaves the edge buffers
unchanged (all `None`), and `apply_corrections` with correction lists
drawn from such all-`None` edges leaves every slot unchanged. -/
theorem vwrap_disabled_when_no_arg {M Slab Idx : Type} (normFn : M → ℝ)
    (standAlone : Bool) (periodic : Fin 3 → Bool) (computed : Fin 3 → M)
    (buf : Fin 6 → Slab) (newSlab : Fin 6 → Slab)
    (inEdge : Fin 6 → Idx → Bool) (x : Idx → ℂ)
    (wrap transfer : Fin 6 → Option (Idx → ℂ))
    (hw : ∀ e, wrap e = none) (ht : ∀ e, transfer e = none) :
    effectivePeriodic 0 periodic = (fun _ => true) ∧
    maxwellVwrap standAlone none (effectivePeriodic 0 periodic) computed = (fun _ => none) ∧
    maxwellVwrapNorm normFn
      (maxwellVwrap standAlone none (effectivePeriodic 0 periodic) computed) = 0 ∧
    initialEdges (effectivePeriodic 0 periodic) buf = (fun _ => none) ∧
    computeCorrections (maxwellVwrap standAlone none (effectivePeriodic 0 periodic) computed)
      (initialEdges (effectivePeriodic 0 periodic) buf) newSlab =
      initialEdges (effectivePeriodic 0 periodic) buf ∧
    applyCorrections inEdge wrap transfer x = x := by
  have hper : effectivePeriodic 0 periodic = (fun _ => true) := by
    simp [effectivePeriodic]
  have hvw : maxwellVwrap standAlone none (effectivePeriodic 0 periodic) computed =
      (fun _ => none) := by
    cases standAlone <;> simp [maxwellVwrap, hper]
  refine ⟨hper, hvw, ?_, ?_, ?_, ?_⟩
  · rw [hvw]
    simp [maxwellVwrapNorm]
  · funext e
    simp [initialEdges, hper]
  · funext e
    simp [computeCorrections, hvw]
  · funext i
    rw [applyCorrections_eq]
    simp [hw, ht, optEdge]

theorem vwrap_disabled_when_no_arg_witness :
    effectivePeriodic 0 (fun _ => false) = (fun _ => true) ∧
    maxwellVwrap false none (effectivePeriodic 0 (fun _ => false)) (fun _ : Fin 3 => ()) =
      (fun _ => none) ∧
    maxwellVwrapNorm (fun _ => (1 : ℝ))
      (maxwellVwrap false none (effectivePeriodic 0 (fun _ => false)) (fun _ : Fin 3 => ())) = 0 ∧
    initialEdges (effectivePeriodic 0 (fun _ => false)) (fun _ : Fin 6 => ()) =
      (fun _ => none) ∧
    computeCorrections (maxwellVwrap false none (effectivePeriodic 0 (fun _ => false))
        (fun _ : Fin 3 => ()))
      (initialEdges (effectivePeriodic 0 (fun _ => false)) (fun _ : Fin 6 => ()))
      (fun _ : Fin 6 => ()) =
      initialEdges (effectivePeriodic 0 (fun _ => false)) (fun _ : Fin 6 => ()) ∧
    applyCorrections (fun _ (_ : Unit) => true) (fun _ => none) (fun _ => none)
      (fun _ => (0 : ℂ)) = (fun _ => (0 : ℂ)) :=
  vwrap_disabled_when_no_arg (fun _ => (1 : ℝ)) false (fun _ => false) (fun _ => ())
    (fun _ => ()) (fun _ => ()) (fun _ (_ : Unit) => true) (fun _ => (0 : ℂ))
    (fun _ => none) (fun _ => none) (fun _ => rfl) (fun _ => rfl)

end Operators

/-! ## Laplace kernel construction (`MaxwellDomain._laplace_kernel`, C6) -/

/-- Modelled from the spec: `Domain.coordinates(dim, 'periodic')`
(`wavesim/domain.py` is not among the sources) returns the fftfreq-ordered
periodic real-space grid of the axis: entry `j` is the signed index — `j`
in the lower half, `j − n` in the upper half — times the pixel size. -/
def periodicSignedIndex (n : ℕ) (j : Fin n) : ℤ :=
  if 2 * (j : ℕ) < n then (j : ℤ) else (j : ℤ) - n

/-- Modelled from the spec: the periodic real-space coordinate of grid
point `j`. -/
noncomputable def periodicCoordinate (n : ℕ) (pixelSize : ℝ) (j : Fin n) : ℝ :=
  (periodicSignedIndex n j : ℝ) * pixelSize

/-- Real-space Laplace kernel formula of `_laplace_kernel`:
`2 cos x / x² − 2 sin x / x³ + sin x / x`. -/
noncomputable def laplaceKfun (x : ℝ) : ℝ :=
  2 * Real.cos x / x ^ 2 - 2 * Real.sin x / x ^ 3 + Real.sin x / x

/-- The sampled kernel of `_laplace_kernel` before the FFT:
`x = coordinates · π / pixel_size`, the `x_kernel[0,0,0] = 1/3`
singularity fix, and the `−π²/pixel_size²` scaling. -/
noncomputable def laplaceSamples (n : ℕ) (pixelSize : ℝ) (j : Fin n) : ℝ :=
  (if (j : ℕ) = 0 then 1 / 3
   else laplaceKfun (periodicCoordinate n pixelSize j * Real.pi / pixelSize)) *
    (-(Real.pi ^ 2) / pixelSize ^ 2)

/-- 1-D discrete Fourier transform (`torch.fft.fftn` along one axis) of a
real sequence: `F[m] = Σ_j q[j]·exp(−2πi·j·m/n)`. -/
noncomputable def dft (n : ℕ) (q : Fin n → ℝ) (m : Fin n) : ℂ :=
  ∑ j : Fin n, (q j : ℂ) *
    Complex.exp (((-(2 * Real.pi * (j : ℕ) * (m : ℕ) / n) : ℝ) : ℂ) * Complex.I)

/-- `MaxwellDomain._laplace_kernel(dim)` (maxwelldomain.py lines 437-455):
returns `-fftn(x_kernel).real`; an axis of length 1 returns 0. -/
noncomputable def laplaceKernelAxis (n : ℕ) (pixelSize : ℝ) (m : Fin n) : ℝ :=
  if n = 1 then 0 else -(dft n (laplaceSamples n pixelSize) m).re

/-- The kernel the claim describes: the Fourier transform of the scaled
samples itself (no negation, complex-valued). -/
noncomputable def claimedKernelAxis (n : ℕ) (pixelSize : ℝ) (m : Fin n) : ℂ :=
  if n = 1 then 0 else dft n (laplaceSamples n pixelSize) m

/-- `MaxwellDomain.__init__` lines 116-118: the 3-D (inverse, unscaled)
kernel is the sum over the three axes of the per-axis kernels. -/
noncomputable def laplaceKernel3 (n0 n1 n2 : ℕ) (ps : ℝ) (m : Fin n0 × Fin n1 × Fin n2) : ℝ :=
  laplaceKernelAxis n0 ps m.1 + laplaceKernelAxis n1 ps m.2.1 + laplaceKernelAxis n2 ps m.2.2

/-- Index reflection `j ↦ (n − j) mod n` on the periodic grid. -/
def negIdx (n : ℕ) (j : Fin n) : Fin n :=
  ⟨(n - j.val) % n, Nat.mod_lt _ (lt_of_le_of_lt (Nat.zero_le _) j.isLt)⟩

theorem laplaceKfun_even (x : ℝ) : laplaceKfun (-x) = laplaceKfun x := by
  unfold laplaceKfun
  rw [Real.cos_neg, Real.sin_neg]
  ring

theorem negIdx_involutive (n : ℕ) (j : Fin n) : negIdx n (negIdx n j) = j := by
  apply Fin.ext
  show (n - (n - j.val) % n) % n = j.val
  rcases Nat.eq_zero_or_pos j.val with h0 | hpos
  · rw [h0]
    simp [Nat.mod_self]
  · have h1 : (n - j.val) % n = n - j.val := Nat.mod_eq_of_lt (by omega)
    rw [h1]
    have h2 : n - (n - j.val) = j.val := by omega
    rw [h2, Nat.mod_eq_of_lt j.isLt]

theorem samples_symm (n : ℕ) (ps : ℝ) (j : Fin n) :
    laplaceSamples n ps (negIdx n j) = laplaceSamples n ps j := by
  rcases Nat.eq_zero_or_pos j.val with h0 | hpos
  · have : negIdx n j = j := by
      apply Fin.ext
      show (n - j.val) % n = j.val
      rw [h0, Nat.sub_zero, Nat.mod_self]
    rw [this]
  · have hlt : j.val < n := j.isLt
    have hv : (negIdx n j).val = n - j.val := by
      show (n - j.val) % n = n - j.val
      exact Nat.mod_eq_of_lt (by omega)
    by_cases hhalf : n - j.val = j.val
    · have : negIdx n j = j := Fin.ext (by rw [hv, hhalf])
      rw [this]
    · have hsgn : (periodicSignedIndex n (negIdx n j) : ℝ) = -(periodicSignedIndex n j : ℝ) := by
        unfold periodicSignedIndex
        rw [hv]
        rcases lt_trichotomy (2 * j.val) n with hlt2 | heq2 | hgt2
        · have hA : ¬ (2 * (n - j.val) < n) := by omega
          rw [if_neg hA, if_pos hlt2]
          push_cast [Nat.cast_sub (le_of_lt hlt)]
          ring
        · omega
        · have hA : 2 * (n - j.val) < n := by omega
          have hB : ¬ (2 * j.val < n) := by omega
          rw [if_pos hA, if_neg hB]
          push_cast [Nat.cast_sub (le_of_lt hlt)]
          ring
      unfold laplaceSamples
      rw [hv]
      rw [if_neg (by omega), if_neg (by omega)]
      unfold periodicCoordinate
      rw [hsgn]
      rw [show -(periodicSignedIndex n j : ℝ) * ps * Real.pi / ps =
        -((periodicSignedIndex n j : ℝ) * ps * Real.pi / ps) by ring]
      rw [laplaceKfun_even]

theorem sin_neg_theta (n : ℕ) (m : Fin n) (j : Fin n) :
    Real.sin (-(2 * Real.pi * ((negIdx n j : ℕ)) * (m : ℕ) / n)) =
      -Real.sin (-(2 * Real.pi * (j : ℕ) * (m : ℕ) / n)) := by
  rcases Nat.eq_zero_or_pos j.val with h0 | hpos
  · have hv : ((negIdx n j : Fin n) : ℕ) = 0 := by
      show (n - j.val) % n = 0
      rw [h0, Nat.sub_zero, Nat.mod_self]
    rw [hv, h0]
    norm_num
  · have hv : ((negIdx n j : Fin n) : ℕ) = n - j.val := by
      show (n - j.val) % n = n - j.val
      exact Nat.mod_eq_of_lt (by omega)
    rw [hv]
    have hcast : ((n - j.val : ℕ) : ℝ) = (n : ℝ) - (j.val : ℝ) :=
      Nat.cast_sub (le_of_lt j.isLt)
    rw [hcast]
    have hnne : (n : ℝ) ≠ 0 :=
      Nat.cast_ne_zero.mpr (lt_of_le_of_lt (Nat.zero_le _) j.isLt).ne'
    have hrw : -(2 * Real.pi * ((n : ℝ) - (j.val : ℝ)) * (m : ℕ) / n) =
        (2 * Real.pi * (j.val : ℝ) * (m : ℕ) / n) + (-(m : ℕ) : ℤ) * (2 * Real.pi) := by
      push_cast
      field_simp
      ring
    rw [hrw, Real.sin_add_int_mul_two_pi, ← Real.sin_neg]
    ring_nf

theorem dft_im_eq_zero (n : ℕ) (q : Fin n → ℝ) (hq : ∀ j, q (negIdx n j) = q j) (m : Fin n) :
    (dft n q m).im = 0 := by
  rw [dft, Complex.im_sum]
  have hterm : ∀ j : Fin n,
      ((q j : ℂ) * Complex.exp (((-(2 * Real.pi * (j : ℕ) * (m : ℕ) / n) : ℝ) : ℂ)
        * Complex.I)).im = q j * Real.sin (-(2 * Real.pi * (j : ℕ) * (m : ℕ) / n)) := by
    intro j
    rw [Complex.mul_im]
    simp only [Complex.ofReal_re, Complex.ofReal_im, Complex.exp_ofReal_mul_I_im,
      zero_mul, add_zero]
  calc ∑ j : Fin n, ((q j : ℂ) * Complex.exp (((-(2 * Real.pi * (j : ℕ) * (m : ℕ) / n) : ℝ) : ℂ)
        * Complex.I)).im
      = ∑ j : Fin n, q j * Real.sin (-(2 * Real.pi * (j : ℕ) * (m : ℕ) / n)) :=
        Finset.sum_congr rfl (fun j _ => hterm j)
    _ = 0 := by
        apply Finset.sum_ninvolution (negIdx n)
        · intro j
          rw [hq j, sin_neg_theta]
          ring
        · intro j hne
          by_contra hfix
          apply hne
          rcases Nat.eq_zero_or_pos j.val with h0 | hpos
          · rw [show -(2 * Real.pi * ((j : ℕ) : ℝ) * (m : ℕ) / n) = 0 by rw [h0]; push_cast; ring]
            simp
          · have hfv : (n - j.val) % n = j.val := congrArg Fin.val hfix
            have : (n - j.val) % n = n - j.val := Nat.mod_eq_of_lt (by omega)
            have h2j : 2 * j.val = n := by omega
            have hj0 : ((j : ℕ) : ℝ) ≠ 0 := Nat.cast_ne_zero.mpr hpos.ne'
            have : -(2 * Real.pi * ((j : ℕ) : ℝ) * (m : ℕ) / n) = (-(m : ℕ) : ℤ) * Real.pi := by
              rw [show (n : ℝ) = 2 * (j.val : ℝ) by exact_mod_cast congrArg Nat.cast h2j.symm]
              push_cast
              field_simp
              ring
            rw [this, Real.sin_int_mul_pi]
            ring
        · intro j
          exact Finset.mem_univ _
        · intro j
          exact negIdx_involutive n j

theorem laplaceSamples_two_zero : laplaceSamples 2 1 0 = -(Real.pi ^ 2) / 3 := by
  simp [laplaceSamples]
  ring

theorem laplaceSamples_two_one : laplaceSamples 2 1 1 = 2 := by
  have hpi : Real.pi ≠ 0 := Real.pi_ne_zero
  simp [laplaceSamples, periodicCoordinate, periodicSignedIndex, laplaceKfun]
  field_simp

theorem dft_two_zero (q : Fin 2 → ℝ) : dft 2 q 0 = ((q 0 + q 1 : ℝ) : ℂ) := by
  rw [dft, Fin.sum_univ_two]
  norm_num

/-- **C6** counterexample: for an axis of length 2 with unit pixel size,
the kernel value stored by the code at Fourier index 0 is
`π²/3 − 2` (the *negated* real part of the FFT of the scaled samples),
while the claim's Fourier transform of those samples is `2 − π²/3`; the
two differ because `π² ≠ 6`. -/
theorem laplace_kernel_sign_counterexample :
    ((laplaceKernelAxis 2 1 0 : ℝ) : ℂ) ≠ claimedKernelAxis 2 1 0 := by
  have h2 : (2 : ℕ) ≠ 1 := by norm_num
  have hdft : dft 2 (laplaceSamples 2 1) 0 = ((-(Real.pi ^ 2) / 3 + 2 : ℝ) : ℂ) := by
    rw [dft_two_zero, laplaceSamples_two_zero, laplaceSamples_two_one]
  rw [laplaceKernelAxis, claimedKernelAxis, if_neg h2, if_neg h2, hdft, Complex.ofReal_re]
  intro h
  rw [Complex.ofReal_inj] at h
  nlinarith [Real.pi_gt_three, h]

theorem laplaceKernelAxis_eq_neg_dft (n : ℕ) (ps : ℝ) (m : Fin n) :
    ((laplaceKernelAxis n ps m : ℝ) : ℂ) =
      if n = 1 then 0 else -dft n (laplaceSamples n ps) m := by
  by_cases h : n = 1
  · subst h
    simp [laplaceKernelAxis]
  · rw [laplaceKernelAxis, if_neg h, if_neg h]
    have him := dft_im_eq_zero n (laplaceSamples n ps) (samples_symm n ps) m
    apply Complex.ext
    · simp
    · simp [him]

/-- **C6** (amended): the per-axis Laplace kernel stored by a Domain is
the **negation** of the Fourier transform of the real-space samples
`k(x) = 2cos(x)/x² − 2sin(x)/x³ + sin(x)/x` with `k(0) = 1/3`, scaled by
`−π²/pixel_size²`, taken on the periodic grid for that axis (the code
takes `-fftn(x_kernel).real`; the samples are even on the periodic grid,
so their transform is real and only the sign differs from the claim);
the 3-D inverse kernel is the sum of the per-axis kernels, and an axis
of length 1 contributes zero. -/
theorem laplace_kernel_negated_ft (n0 n1 n2 : ℕ) (ps : ℝ) (m : Fin n0 × Fin n1 × Fin n2) :
    ((laplaceKernel3 n0 n1 n2 ps m : ℝ) : ℂ) =
      (if n0 = 1 then 0 else -dft n0 (laplaceSamples n0 ps) m.1) +
      (if n1 = 1 then 0 else -dft n1 (laplaceSamples n1 ps) m.2.1) +
      (if n2 = 1 then 0 else -dft n2 (laplaceSamples n2 ps) m.2.2) := by
  rw [laplaceKernel3]
  push_cast
  rw [laplaceKernelAxis_eq_neg_dft, laplaceKernelAxis_eq_neg_dft, laplaceKernelAxis_eq_neg_dft]

end Wavesim
